import Mathlib

/-!
Shallow embedding of the creeping-limit execution engine in
`alpaca_integration.py` (`place_calendar_spread_order`,
`close_calendar_spread_order`, `wait_for_fill`) and proofs of the spec
claims about it.

Prices and dollar amounts are modelled as rationals; broker behaviour
(fill reports, timeouts, exceptions raised by the gateway) is an explicit
input script, one entry per price rung, so that every theorem quantifies
over all broker behaviours.
-/

namespace EarningsBot

/-- Python `round(x, 2)` as used on every limit price.  (Python rounds
half-to-even on floats; the engine's claims never sit on a half-cent
boundary, so the rounding convention of `round` is immaterial here.) -/
def round2 (x : ℚ) : ℚ := ((round (x * 100) : ℤ) : ℚ) / 100

/-- Bid/ask for the two legs, as returned by `get_spread_quotes`
(`short_bid, short_ask, long_bid, long_ask`). -/
structure SpreadQuotes where
  short_bid : ℚ
  short_ask : ℚ
  long_bid : ℚ
  long_ask : ℚ
deriving DecidableEq

/-- `current_market_mid_spread = (long_bid + long_ask) / 2 - (short_bid + short_ask) / 2`
(line 61), the opening ladder's starting price. -/
def current_market_mid_spread (q : SpreadQuotes) : ℚ :=
  (q.long_bid + q.long_ask) / 2 - (q.short_bid + q.short_ask) / 2

/-- `chase_step = max((spread_short + spread_long) / 2.0, 0.01)` (lines 67-69). -/
def chase_step (q : SpreadQuotes) : ℚ :=
  max ((q.short_ask - q.short_bid + (q.long_ask - q.long_bid)) / 2) (1 / 100)

/-- `effective_max_chase_price = long_ask` (line 74), the opening ladder's bound. -/
def effective_max_chase_price (q : SpreadQuotes) : ℚ := q.long_ask

/-- Outcome of one `client.cancel_order_by_id` call: success, an `APIError`
with a status code, or some other exception. -/
inductive CancelRaw where
  | success
  | apiError (statusCode : ℕ)
  | otherError
deriving DecidableEq

/-- The cancel-site handler used at all four cancel sites
(`except APIError as e: if e.status_code != 422: raise`): a 422 rejection is
swallowed, any other `APIError` is re-raised, and a non-`APIError` exception
is not caught at the site at all. -/
def handleCancel : CancelRaw → Except CancelRaw Unit
  | .success => .ok ()
  | .apiError s => if s ≠ 422 then .error (.apiError s) else .ok ()
  | .otherError => .error .otherError

/-- The order snapshot returned by `wait_for_fill` once it observes a fill:
`filled_qty` (after `int(float(...))`), `filled_avg_price`, `commission`,
and whether `status == OrderStatus.CANCELED`. -/
structure FillSnap where
  filled_qty : ℤ
  filled_avg_price : ℚ
  commission : ℚ
  statusCanceled : Bool
deriving DecidableEq

/-- What the broker does for one price rung of a chase loop:
a fill observed by `wait_for_fill` (with the result of the subsequent cancel
call, if one is made), a `TimeoutError` from `wait_for_fill` (with the result
of the cancel issued in the timeout handler), a non-timeout exception raised
after submission (e.g. inside `wait_for_fill`), or `client.submit_order`
itself raising. -/
inductive RungOutcome where
  | fillObserved (snap : FillSnap) (cancelRes : CancelRaw)
  | fillTimeout (cancelRes : CancelRaw)
  | waitExn
  | submitExn
deriving DecidableEq

/-- The mutable locals of the opening chase loop (lines 82-86, 65). -/
structure OpenState where
  remaining_overall_quantity : ℤ
  total_cost_so_far : ℚ
  total_filled_qty : ℤ
  total_filled_value : ℚ
  total_commission : ℚ
  price_to_chase : ℚ
deriving DecidableEq

/-- The loop parameters fixed before the opening chase loop starts. -/
structure ChaseConfig where
  step : ℚ
  maxChase : ℚ
  max_total_cost_allowed : Option ℚ
deriving DecidableEq

/-- `affordable_qty_at_this_lp` for a set cost ceiling (lines 95-104). -/
def affordable_qty (mc total_cost lp : ℚ) (remaining : ℤ) : ℤ :=
  let remaining_budget := mc - total_cost
  if lp ≤ 0 then
    if remaining_budget < 0 then 0 else remaining
  else if 0 < remaining_budget then
    ⌊remaining_budget / (lp * 100)⌋
  else 0

/-- `qty_for_this_order_attempt = min(remaining_overall_quantity, affordable_qty_at_this_lp)`
(lines 94-106); with no ceiling the affordable quantity defaults to the
remaining quantity. -/
def qty_for_attempt (cfg : ChaseConfig) (s : OpenState) : ℤ :=
  let lp := round2 s.price_to_chase
  match cfg.max_total_cost_allowed with
  | none => s.remaining_overall_quantity
  | some mc =>
      min s.remaining_overall_quantity
        (affordable_qty mc s.total_cost_so_far lp s.remaining_overall_quantity)

/-- One submitted order attempt, as recorded by the loop: the remaining
quantity when it was sized, its limit price and quantity, the broker outcome,
and whether the engine issued a cancel against it. -/
structure RungRecord where
  remainingBefore : ℤ
  limit_price : ℚ
  qty : ℤ
  outcome : RungOutcome
  cancelIssued : Bool
deriving DecidableEq

/-- The state update of lines 149-156, applied only when
`filled_qty_this_order > 0`. -/
def applyFill (s : OpenState) (snap : FillSnap) : OpenState :=
  if 0 < snap.filled_qty then
    { s with
      total_cost_so_far :=
        s.total_cost_so_far + snap.filled_avg_price * (snap.filled_qty : ℚ) * 100
      remaining_overall_quantity := s.remaining_overall_quantity - snap.filled_qty
      total_filled_qty := s.total_filled_qty + snap.filled_qty
      total_filled_value :=
        s.total_filled_value + snap.filled_avg_price * (snap.filled_qty : ℚ)
      total_commission := s.total_commission + snap.commission }
  else s

/-- `price_to_chase += chase_step` (line 186). -/
def advance (cfg : ChaseConfig) (s : OpenState) : OpenState :=
  { s with price_to_chase := s.price_to_chase + cfg.step }

/-- How the opening chase loop can stop: full fill (`break` at 161 or the
while condition), price past `effective_max_chase_price`, affordability break
(line 110), an exception escaping the loop (cancel failure in the timeout
handler), or the broker script running out (the run is observed only up to
this point). -/
inductive ExitReason where
  | done
  | exhausted
  | unaffordable
  | cancelExn
  | scriptEnd
deriving DecidableEq

/-- Result of one loop-body iteration: continue chasing with a new state, or
leave the loop. -/
inductive StepRes where
  | halt (e : ExitReason) (s : OpenState) (rec : RungRecord)
  | next (s : OpenState) (rec : RungRecord)
deriving DecidableEq

/-- One iteration of the opening loop body after the affordability check
(lines 111-186), given the broker outcome for this rung. -/
def openStep (cfg : ChaseConfig) (s : OpenState) (o : RungOutcome) : StepRes :=
  let lp := round2 s.price_to_chase
  let qty := qty_for_attempt cfg s
  match o with
  | .submitExn =>
      .next (advance cfg s) ⟨s.remaining_overall_quantity, lp, qty, o, false⟩
  | .waitExn =>
      .next (advance cfg s) ⟨s.remaining_overall_quantity, lp, qty, o, false⟩
  | .fillTimeout cres =>
      match handleCancel cres with
      | .ok _ => .next (advance cfg s) ⟨s.remaining_overall_quantity, lp, qty, o, true⟩
      | .error _ => .halt .cancelExn s ⟨s.remaining_overall_quantity, lp, qty, o, true⟩
  | .fillObserved snap _cres =>
      let s' := applyFill s snap
      if s'.remaining_overall_quantity ≤ 0 then
        .halt .done s' ⟨s.remaining_overall_quantity, lp, qty, o, false⟩
      else
        .next (advance cfg s')
          ⟨s.remaining_overall_quantity, lp, qty, o,
            decide (snap.filled_qty < qty) && !snap.statusCanceled⟩

/-- The guards evaluated before each loop body: the while condition of
line 91 and the affordability break of lines 108-110. -/
def loopGate (cfg : ChaseConfig) (s : OpenState) : Option ExitReason :=
  if s.remaining_overall_quantity ≤ 0 then some .done
  else if cfg.maxChase < s.price_to_chase then some .exhausted
  else if qty_for_attempt cfg s < 1 then some .unaffordable
  else none

/-- Accumulated result of a chase run: the submitted rungs, the final state,
and why the loop stopped. -/
structure LoopResult where
  records : List RungRecord
  final : OpenState
  exit : ExitReason
deriving DecidableEq

/-- The opening chase loop (lines 91-186) driven by a broker script. -/
def openLoop (cfg : ChaseConfig) : List RungOutcome → OpenState → LoopResult
  | [], s =>
      match loopGate cfg s with
      | some e => ⟨[], s, e⟩
      | none => ⟨[], s, .scriptEnd⟩
  | o :: rest, s =>
      match loopGate cfg s with
      | some e => ⟨[], s, e⟩
      | none =>
          match openStep cfg s o with
          | .halt e s' rec => ⟨[rec], s', e⟩
          | .next s' rec =>
              let r := openLoop cfg rest s'
              ⟨rec :: r.records, r.final, r.exit⟩

/-- The duck-typed `OrderSummary` built at lines 190-195 (average price is
stored; quantity is the cumulative filled quantity). -/
structure OrderSummary where
  filled_avg_price : ℚ
  filled_qty : ℤ
  commission : ℚ
deriving DecidableEq

/-- The loop configuration `place_calendar_spread_order` builds from the
initial quotes. -/
def mkChaseConfig (q : SpreadQuotes) (mc : Option ℚ) : ChaseConfig :=
  ⟨chase_step q, effective_max_chase_price q, mc⟩

/-- The loop state at entry (lines 65, 82-86). -/
def initState (q : SpreadQuotes) (origQty : ℤ) : OpenState :=
  ⟨origQty, 0, 0, 0, 0, current_market_mid_spread q⟩

/-- The chase run `place_calendar_spread_order` performs once the quotes are
available and the quantity precondition holds. -/
def place_run (q : SpreadQuotes) (origQty : ℤ) (mc : Option ℚ)
    (script : List RungOutcome) : LoopResult :=
  openLoop (mkChaseConfig q mc) script (initState q origQty)

/-- `place_calendar_spread_order` (lines 34-205).  `quotes = none` models
`get_spread_quotes` raising (no quote available for a leg); the exception is
caught by the outer handler before any order is submitted.  Returns the
result handed to the caller together with the submitted order attempts. -/
def place_calendar_spread_order (quotes : Option SpreadQuotes)
    (original_intended_quantity : ℤ) (max_total_cost_allowed : Option ℚ)
    (script : List RungOutcome) : Option OrderSummary × List RungRecord :=
  if original_intended_quantity < 1 then (none, [])
  else
    match quotes with
    | none => (none, [])
    | some q =>
        let r := place_run q original_intended_quantity max_total_cost_allowed script
        match r.exit with
        | .cancelExn => (none, r.records)
        | _ =>
            (if 0 < r.final.total_filled_qty then
              some ⟨r.final.total_filled_value / (r.final.total_filled_qty : ℚ),
                r.final.total_filled_qty, r.final.total_commission⟩
            else none, r.records)

/-- A rung created a broker order (submission did not raise). -/
def orderCreated (r : RungRecord) : Bool :=
  match r.outcome with
  | .submitExn => false
  | _ => true

/-- The rung's order was observed fully filled. -/
def fullyFilledRung (r : RungRecord) : Bool :=
  match r.outcome with
  | .fillObserved snap _ => r.qty ≤ snap.filled_qty
  | _ => false

/-- The rung's order was observed in a terminal status (`CANCELED`). -/
def observedTerminalRung (r : RungRecord) : Bool :=
  match r.outcome with
  | .fillObserved snap _ => snap.statusCanceled
  | _ => false

/-- The rung's order may still be live when the loop moves on: it was
created but was neither fully filled, nor observed terminal, nor was a
cancel issued against it. -/
def orderLive (r : RungRecord) : Bool :=
  orderCreated r && !(fullyFilledRung r || observedTerminalRung r || r.cancelIssued)

/-- Filled quantity a rung contributed to the aggregator (zero unless a fill
with positive quantity was observed). -/
def recFillQty (r : RungRecord) : ℤ :=
  match r.outcome with
  | .fillObserved snap _ => if 0 < snap.filled_qty then snap.filled_qty else 0
  | _ => 0

/-- Notional value a rung contributed to `total_filled_value`. -/
def recFillValue (r : RungRecord) : ℚ :=
  match r.outcome with
  | .fillObserved snap _ =>
      if 0 < snap.filled_qty then snap.filled_avg_price * (snap.filled_qty : ℚ) else 0
  | _ => 0

/-- Limit prices of the rungs at which a fill actually occurred. -/
def filledRungLimits (recs : List RungRecord) : List ℚ :=
  (recs.filter fun r => 0 < recFillQty r).map fun r => r.limit_price

/-- An order snapshot as polled by `wait_for_fill` (`filled_qty` before the
`int` conversion, compared via `float(...) > 0`). -/
structure OrderView where
  filled_qty : ℚ
deriving DecidableEq

/-- `wait_for_fill` (lines 465-478) over the finite list of snapshots the
polling loop observes before its deadline: return the first snapshot showing
a positive filled quantity, else raise `TimeoutError` (the `.error` case).
The source polls `get_order_by_id` and sleeps; it never cancels. -/
def wait_for_fill : List OrderView → Except Unit OrderView
  | [] => .error ()
  | v :: rest => if 0 < v.filled_qty then .ok v else wait_for_fill rest

/-- The shape of `last_order` as far as the caller of
`close_calendar_spread_order` can observe it. -/
structure CloseOrderView where
  filled_qty : ℤ
  filled_avg_price : ℚ
deriving DecidableEq

/-- Mutable locals of the closing loop (lines 227-240). -/
structure CloseState where
  remaining : ℤ
  total_filled_qty : ℤ
  total_filled_value : ℚ
  price : ℚ
  last_order : Option CloseOrderView
deriving DecidableEq

/-- Why the closing loop stopped: its while condition / full-fill break, an
exception escaping to the outer handler, or the script running out. -/
inductive CloseEnd where
  | loopExit
  | errToOuter
  | scriptEnd
deriving DecidableEq

/-- The closing chase loop (lines 244-302).  Unlike the opening loop, the
body has no generic exception handler, so a non-timeout wait exception, a
submit exception, or a cancel failure all escape to the outer handler. -/
def closeLoop (stp min_price : ℚ) : List RungOutcome → CloseState → CloseState × CloseEnd
  | [], s =>
      if s.remaining ≤ 0 ∨ min_price < s.price then (s, .loopExit) else (s, .scriptEnd)
  | o :: rest, s =>
      if s.remaining ≤ 0 ∨ min_price < s.price then (s, .loopExit)
      else
        match o with
        | .submitExn => (s, .errToOuter)
        | .waitExn => ({ s with last_order := some ⟨0, 0⟩ }, .errToOuter)
        | .fillTimeout cres =>
            let s₁ := { s with last_order := some ⟨0, 0⟩ }
            match handleCancel cres with
            | .ok _ => closeLoop stp min_price rest { s₁ with price := s₁.price + stp }
            | .error _ => (s₁, .errToOuter)
        | .fillObserved snap cres =>
            let s₁ := { s with last_order := some ⟨0, 0⟩ }
            let fq := snap.filled_qty
            let s₂ :=
              if 0 < fq then
                { s₁ with
                  total_filled_qty := s₁.total_filled_qty + fq
                  total_filled_value :=
                    s₁.total_filled_value + snap.filled_avg_price * (fq : ℚ) }
              else s₁
            let s₃ := { s₂ with remaining := s₂.remaining - fq }
            if s₃.remaining ≤ 0 then
              (if 0 < s₃.total_filled_qty then
                { s₃ with
                  last_order :=
                    some ⟨s₃.total_filled_qty,
                      s₃.total_filled_value / (s₃.total_filled_qty : ℚ)⟩ }
              else s₃, .loopExit)
            else
              match handleCancel cres with
              | .ok _ => closeLoop stp min_price rest { s₃ with price := s₃.price + stp }
              | .error _ => (s₃, .errToOuter)

/-- What `close_calendar_spread_order` hands back: `None`, the ad-hoc
partial-fill summary of lines 307-314, or the `last_order` object. -/
inductive CloseRet where
  | noRet
  | partSummary (filled_qty : ℤ) (avg : ℚ)
  | lastOrderRet (v : CloseOrderView)
deriving DecidableEq

/-- The closing loop run performed by `close_calendar_spread_order` once
quotes are available: `price` starts at `-(long_ask - short_bid)` and creeps
up to `min_price = short_ask` by the same step formula as the opening loop. -/
def close_run (q : SpreadQuotes) (quantity : ℤ) (script : List RungOutcome) :
    CloseState × CloseEnd :=
  closeLoop (chase_step q) q.short_ask script
    ⟨quantity, 0, 0, -(q.long_ask - q.short_bid), none⟩

/-- The result dispatch of `close_calendar_spread_order` (lines 304-322):
partial overall fill → ad-hoc summary object; full fill → `last_order`;
otherwise (in particular zero fill) → `last_order`, which is `None` only
when no order was ever submitted. -/
def closeDispatch (quantity : ℤ) (s : CloseState) : CloseRet :=
  if 0 < s.total_filled_qty ∧ s.total_filled_qty < quantity then
    match s.last_order with
    | some _ =>
        .partSummary s.total_filled_qty
          (s.total_filled_value / (s.total_filled_qty : ℚ))
    | none => .noRet
  else if s.total_filled_qty = quantity then
    match s.last_order with
    | some v => .lastOrderRet v
    | none => .noRet
  else
    match s.last_order with
    | some v => .lastOrderRet v
    | none => .noRet

/-- `close_calendar_spread_order` (lines 208-325); any exception reaching
the outer handler yields `None`. -/
def close_calendar_spread_order (quotes : Option SpreadQuotes) (quantity : ℤ)
    (script : List RungOutcome) : CloseRet :=
  match quotes with
  | none => .noRet
  | some q =>
      let r := close_run q quantity script
      match r.2 with
      | .errToOuter => .noRet
      | _ => closeDispatch quantity r.1

/-- The quotes of the spec's worked scenarios:
short(bid=1.00, ask=1.10), long(bid=2.00, ask=2.20). -/
def q0 : SpreadQuotes := ⟨1, 11 / 10, 2, 11 / 5⟩

/-- The record a loop-body iteration produces, whether it halts or continues. -/
def stepRec : StepRes → RungRecord
  | .halt _ _ rec => rec
  | .next _ rec => rec

/-- The state a loop-body iteration leaves behind. -/
def stepState : StepRes → OpenState
  | .halt _ s _ => s
  | .next s _ => s

/-- Claim C1 as stated: in every run, once a later order attempt has been
created, every earlier created order attempt has been resolved (fully
filled, cancel issued, or observed terminal) — i.e. is no longer possibly
live. -/
def C1_as_stated : Prop :=
  ∀ (q : SpreadQuotes) (origQty : ℤ) (mc : Option ℚ) (script : List RungOutcome)
    (i j : ℕ)
    (hi : i < ((place_calendar_spread_order (some q) origQty mc script).2).length)
    (hj : j < ((place_calendar_spread_order (some q) origQty mc script).2).length),
    i < j →
    orderCreated (((place_calendar_spread_order (some q) origQty mc script).2).get ⟨i, hi⟩) = true →
    orderCreated (((place_calendar_spread_order (some q) origQty mc script).2).get ⟨j, hj⟩) = true →
    orderLive (((place_calendar_spread_order (some q) origQty mc script).2).get ⟨i, hi⟩) = false

/-- The lower-bound half of claim C8 as stated: whenever the engine returns
a fill summary, some rung limit price at which a fill occurred is below (or
equal to) the reported average price. -/
def C8_lower_bound_as_stated : Prop :=
  ∀ (q : SpreadQuotes) (origQty : ℤ) (mc : Option ℚ) (script : List RungOutcome)
    (s : OrderSummary),
    (place_calendar_spread_order (some q) origQty mc script).1 = some s →
    ∃ p ∈ filledRungLimits ((place_calendar_spread_order (some q) origQty mc script).2),
      p ≤ s.filled_avg_price

/-- Claim C4's zero-fill clause as stated, for `close_calendar_spread_order`:
whenever zero quantity was filled across all rungs, the result is absent. -/
def C4_close_zero_fill_as_stated : Prop :=
  ∀ (q : SpreadQuotes) (quantity : ℤ) (script : List RungOutcome),
    (close_run q quantity script).1.total_filled_qty = 0 →
    close_calendar_spread_order (some q) quantity script = .noRet

/-- Invariant of the closing loop tying `last_order` to the running totals
(given nonnegative broker fill quantities). -/
def CloseInv (quantity : ℤ) (s : CloseState) : Prop :=
  0 ≤ s.total_filled_qty
  ∧ s.total_filled_qty + s.remaining = quantity
  ∧ (s.total_filled_qty = 0 → s.last_order = none ∨ s.last_order = some ⟨0, 0⟩)
  ∧ (s.remaining ≤ 0 → s.total_filled_qty = 0
      ∨ s.last_order
          = some ⟨s.total_filled_qty, s.total_filled_value / (s.total_filled_qty : ℚ)⟩)

theorem qty_le_remaining (cfg : ChaseConfig) (s : OpenState) :
    qty_for_attempt cfg s ≤ s.remaining_overall_quantity := by
  unfold qty_for_attempt
  cases cfg.max_total_cost_allowed with
  | none => exact le_refl _
  | some mc => exact min_le_left _ _

theorem loopGate_none_iff (cfg : ChaseConfig) (s : OpenState) :
    loopGate cfg s = none ↔
      0 < s.remaining_overall_quantity ∧ s.price_to_chase ≤ cfg.maxChase
        ∧ 1 ≤ qty_for_attempt cfg s := by
  unfold loopGate
  split_ifs with h1 h2 h3 <;> simp_all

theorem wait_for_fill_ok_mem (polls : List OrderView) (v : OrderView)
    (h : wait_for_fill polls = .ok v) : v ∈ polls ∧ 0 < v.filled_qty := by
  induction polls with
  | nil => simp [wait_for_fill] at h
  | cons w rest ih =>
      rw [wait_for_fill] at h
      split_ifs at h with hw
      · cases h
        exact ⟨List.mem_cons_self _ _, hw⟩
      · rcases ih h with ⟨hm, hq⟩
        exact ⟨List.mem_cons_of_mem _ hm, hq⟩

theorem wait_for_fill_error_iff (polls : List OrderView) :
    wait_for_fill polls = .error () ↔ ∀ v ∈ polls, v.filled_qty ≤ 0 := by
  induction polls with
  | nil => simp [wait_for_fill]
  | cons w rest ih =>
      rw [wait_for_fill]
      split_ifs with hw
      · simp only [List.mem_cons]
        constructor
        · intro h; cases h
        · intro h
          have := h w (Or.inl rfl)
          exact absurd hw (not_lt.mpr this)
      · simp only [List.mem_cons, ih]
        constructor
        · intro h v hv
          rcases hv with rfl | hv
          · exact not_lt.mp hw
          · exact h v hv
        · intro h v hv
          exact h v (Or.inr hv)

/-- C7: `wait_for_fill` returns an order snapshot (the one it polled, with
a positive filled quantity — a partial fill counts) exactly when some poll
before the deadline observes a positive filled quantity, and raises
`TimeoutError` exactly when every poll before the deadline observes no
filled quantity.  The embedded `wait_for_fill` performs no cancellation —
its only interaction is reading the polled snapshots; cancellation is the
caller's job. -/
theorem C7_wait_for_fill :
    (∀ polls : List OrderView,
        (∃ v, wait_for_fill polls = .ok v ∧ v ∈ polls ∧ 0 < v.filled_qty)
          ↔ ∃ v ∈ polls, 0 < v.filled_qty)
    ∧ ∀ polls : List OrderView,
        wait_for_fill polls = .error () ↔ ∀ v ∈ polls, v.filled_qty ≤ 0 := by
  constructor
  · intro polls
    constructor
    · rintro ⟨v, _, hm, hq⟩
      exact ⟨v, hm, hq⟩
    · rintro ⟨v, hm, hq⟩
      cases hw : wait_for_fill polls with
      | error e =>
          cases e
          have := (wait_for_fill_error_iff polls).mp hw v hm
          exact absurd hq (not_lt.mpr this)
      | ok w =>
          rcases wait_for_fill_ok_mem polls w hw with ⟨hm', hq'⟩
          exact ⟨w, rfl, hm', hq'⟩
  · exact wait_for_fill_error_iff

/-- C7 witness: with a single zero-filled poll, `wait_for_fill` times out. -/
theorem C7_wait_for_fill_witness : wait_for_fill [⟨0⟩] = .error () :=
  (C7_wait_for_fill.2 [⟨0⟩]).mpr (by intro v hv; rw [List.mem_singleton] at hv; subst hv; exact le_refl _)

/-- C3: the opening price ladder the loop actually runs starts at
long-mid minus short-mid, steps by `max(half the summed bid-ask widths, 0.01)`,
and is bounded by the long leg's ask; on the scenario quotes
short(1.00/1.10), long(2.00/2.20) this gives start 1.05, step 0.15,
bound 2.20, and the first submitted rung's limit price is 1.05. -/
theorem C3_ladder_params :
    (∀ (q : SpreadQuotes) (mc : Option ℚ) (origQty : ℤ),
        (initState q origQty).price_to_chase
            = (q.long_bid + q.long_ask) / 2 - (q.short_bid + q.short_ask) / 2
          ∧ (mkChaseConfig q mc).step
            = max ((q.short_ask - q.short_bid + (q.long_ask - q.long_bid)) / 2) (1 / 100)
          ∧ (mkChaseConfig q mc).maxChase = q.long_ask)
    ∧ current_market_mid_spread q0 = 21 / 20
    ∧ chase_step q0 = 3 / 20
    ∧ effective_max_chase_price q0 = 11 / 5
    ∧ ((place_run q0 5 none [.fillTimeout .success]).records.map fun r => r.limit_price)
        = [21 / 20] := by
  refine ⟨fun q mc origQty => ⟨rfl, rfl, rfl⟩, ?_, ?_, ?_, ?_⟩
  · with_unfolding_all decide
  · with_unfolding_all decide
  · with_unfolding_all decide
  · with_unfolding_all decide

/-- C6: if either leg's bid or ask is unavailable (`get_spread_quotes`
raises before the ladder is initialized), `place_calendar_spread_order`
returns `None` and submits zero orders. -/
theorem C6_quote_unavailable (origQty : ℤ) (mc : Option ℚ) (script : List RungOutcome) :
    place_calendar_spread_order none origQty mc script = (none, []) := by
  unfold place_calendar_spread_order
  split <;> rfl

/-- C9: the cancel-site handler turns success and the 422
already-terminal rejection into success, re-raises exactly the other
errors (the original exception, at the site), and a 422-rejected cancel
leaves the chase loop continuing just as a successful cancel does. -/
theorem C9_cancel_idempotent :
    (∀ c, handleCancel c = .ok () ↔ c = .success ∨ c = .apiError 422)
    ∧ (∀ c e, handleCancel c = .error e ↔ e = c ∧ c ≠ .success ∧ c ≠ .apiError 422)
    ∧ ∀ (cfg : ChaseConfig) (s : OpenState),
        openStep cfg s (.fillTimeout (.apiError 422))
          = .next (advance cfg s)
              ⟨s.remaining_overall_quantity, round2 s.price_to_chase,
                qty_for_attempt cfg s, .fillTimeout (.apiError 422), true⟩
          ∧ openStep cfg s (.fillTimeout .success)
            = .next (advance cfg s)
                ⟨s.remaining_overall_quantity, round2 s.price_to_chase,
                  qty_for_attempt cfg s, .fillTimeout .success, true⟩ := by
  refine ⟨?_, ?_, ?_⟩
  · intro c
    cases c with
    | success => simp [handleCancel]
    | apiError n =>
        by_cases hn : n = 422 <;> simp [handleCancel, hn]
    | otherError => simp [handleCancel]
  · intro c e
    cases c with
    | success => simp [handleCancel]
    | apiError n =>
        by_cases hn : n = 422
        · simp [handleCancel, hn]
        · simp [handleCancel, hn]
          tauto
    | otherError => simp [handleCancel]; tauto
  · intro cfg s
    exact ⟨by simp [openStep, handleCancel], by simp [openStep, handleCancel]⟩

/-- C9 witness: a successful cancel is accepted by the handler. -/
theorem C9_cancel_idempotent_witness : handleCancel .success = .ok () :=
  (C9_cancel_idempotent.1 .success).mpr (Or.inl rfl)

@[simp] theorem advance_remaining (cfg : ChaseConfig) (s : OpenState) :
    (advance cfg s).remaining_overall_quantity = s.remaining_overall_quantity := rfl

@[simp] theorem advance_cost (cfg : ChaseConfig) (s : OpenState) :
    (advance cfg s).total_cost_so_far = s.total_cost_so_far := rfl

@[simp] theorem advance_filled_qty (cfg : ChaseConfig) (s : OpenState) :
    (advance cfg s).total_filled_qty = s.total_filled_qty := rfl

@[simp] theorem advance_filled_value (cfg : ChaseConfig) (s : OpenState) :
    (advance cfg s).total_filled_value = s.total_filled_value := rfl

@[simp] theorem advance_commission (cfg : ChaseConfig) (s : OpenState) :
    (advance cfg s).total_commission = s.total_commission := rfl

theorem openLoop_inv_master (cfg : ChaseConfig) (P : OpenState → Prop)
    (Φ : RungRecord → Prop)
    (hadv : ∀ s, P s → P (advance cfg s))
    (hfill : ∀ s snap cres b, P s → loopGate cfg s = none →
        Φ ⟨s.remaining_overall_quantity, round2 s.price_to_chase,
            qty_for_attempt cfg s, .fillObserved snap cres, b⟩ →
        P (applyFill s snap)) :
    ∀ script s, P s → (∀ r ∈ (openLoop cfg script s).records, Φ r) →
      P ((openLoop cfg script s).final) := by
  intro script
  induction script with
  | nil =>
      intro s hP _
      simp only [openLoop]
      rcases hg : loopGate cfg s with _ | e <;> simpa [hg] using hP
  | cons o rest ih =>
      intro s hP hrec
      simp only [openLoop] at hrec ⊢
      rcases hg : loopGate cfg s with _ | e
      · simp only [hg] at hrec ⊢
        cases o with
        | submitExn =>
            simp only [openStep] at hrec ⊢
            exact ih _ (hadv s hP) fun r hr => hrec r (List.mem_cons_of_mem _ hr)
        | waitExn =>
            simp only [openStep] at hrec ⊢
            exact ih _ (hadv s hP) fun r hr => hrec r (List.mem_cons_of_mem _ hr)
        | fillTimeout cres =>
            simp only [openStep] at hrec ⊢
            rcases hc : handleCancel cres with e | u <;> simp only [hc] at hrec ⊢
            · exact hP
            · exact ih _ (hadv s hP) fun r hr => hrec r (List.mem_cons_of_mem _ hr)
        | fillObserved snap cres =>
            simp only [openStep] at hrec ⊢
            by_cases hrem : (applyFill s snap).remaining_overall_quantity ≤ 0
            · simp only [hrem, if_true] at hrec ⊢
              exact hfill s snap cres false hP hg (hrec _ (List.mem_cons_self _ _))
            · simp only [hrem, if_false] at hrec ⊢
              exact ih _ (hadv _ (hfill s snap cres _ hP hg (hrec _ (List.mem_cons_self _ _))))
                fun r hr => hrec r (List.mem_cons_of_mem _ hr)
      · simpa [hg] using hP

theorem openLoop_records_master (cfg : ChaseConfig) (Ψ : RungRecord → Prop)
    (hstep : ∀ s o, loopGate cfg s = none → Ψ (stepRec (openStep cfg s o))) :
    ∀ script s, ∀ r ∈ (openLoop cfg script s).records, Ψ r := by
  intro script
  induction script with
  | nil =>
      intro s r hr
      simp only [openLoop] at hr
      rcases hg : loopGate cfg s with _ | e <;> simp [hg] at hr
  | cons o rest ih =>
      intro s r hr
      simp only [openLoop] at hr
      rcases hg : loopGate cfg s with _ | e
      · simp only [hg] at hr
        rcases hs : openStep cfg s o with ⟨e', s', rec⟩ | ⟨s', rec⟩ <;>
          simp only [hs] at hr
        · have h := hstep s o hg
          rw [hs] at h
          simp only [List.mem_singleton] at hr
          subst hr
          exact h
        · rcases List.mem_cons.mp hr with rfl | hr'
          · have h := hstep s o hg
            rw [hs] at h
            exact h
          · exact ih s' r hr'
      · simp [hg] at hr

theorem stepRec_fields (cfg : ChaseConfig) (s : OpenState) (o : RungOutcome) :
    (stepRec (openStep cfg s o)).qty = qty_for_attempt cfg s
    ∧ (stepRec (openStep cfg s o)).remainingBefore = s.remaining_overall_quantity
    ∧ (stepRec (openStep cfg s o)).limit_price = round2 s.price_to_chase
    ∧ (stepRec (openStep cfg s o)).outcome = o := by
  cases o with
  | submitExn => exact ⟨rfl, rfl, rfl, rfl⟩
  | waitExn => exact ⟨rfl, rfl, rfl, rfl⟩
  | fillTimeout cres =>
      rcases hc : handleCancel cres with e | u <;> simp [openStep, stepRec, hc]
  | fillObserved snap cres =>
      by_cases hrem : (applyFill s snap).remaining_overall_quantity ≤ 0 <;>
        simp [openStep, stepRec, hrem]

/-- C5: assuming each broker fill report is bounded by the quantity
submitted for that order, the cumulative filled quantity of a chase run
never exceeds the originally requested quantity, and every rung's submitted
quantity is at most the remaining quantity at that rung. -/
theorem C5_no_overfill (q : SpreadQuotes) (origQty : ℤ) (mc : Option ℚ)
    (script : List RungOutcome) (hq : 1 ≤ origQty)
    (hfq : ∀ r ∈ (place_run q origQty mc script).records, ∀ snap cres,
        r.outcome = .fillObserved snap cres → snap.filled_qty ≤ r.qty) :
    (place_run q origQty mc script).final.total_filled_qty ≤ origQty
    ∧ ∀ r ∈ (place_run q origQty mc script).records, r.qty ≤ r.remainingBefore := by
  constructor
  · have hmain := openLoop_inv_master (mkChaseConfig q mc)
      (fun s => 0 ≤ s.remaining_overall_quantity
        ∧ s.total_filled_qty + s.remaining_overall_quantity = origQty)
      (fun r => ∀ snap cres, r.outcome = .fillObserved snap cres → snap.filled_qty ≤ r.qty)
      (fun s hP => by simpa using hP)
      (fun s snap cres b hP hg hΦ => by
        have hbound : snap.filled_qty ≤ qty_for_attempt (mkChaseConfig q mc) s :=
          hΦ snap cres rfl
        have hrem : qty_for_attempt (mkChaseConfig q mc) s ≤ s.remaining_overall_quantity :=
          qty_le_remaining _ _
        by_cases hpos : 0 < snap.filled_qty
        · simp only [applyFill, hpos, if_true]
          refine ⟨by omega, by omega⟩
        · simpa [applyFill, hpos] using hP)
      script (initState q origQty) (by simp [initState]; omega) hfq
    obtain ⟨h0, hsum⟩ := hmain
    simp only [place_run]
    omega
  · have h2 := openLoop_records_master (mkChaseConfig q mc)
      (fun r => r.qty ≤ r.remainingBefore)
      (fun s o hg => by
        have h := stepRec_fields (mkChaseConfig q mc) s o
        show (stepRec (openStep (mkChaseConfig q mc) s o)).qty
          ≤ (stepRec (openStep (mkChaseConfig q mc) s o)).remainingBefore
        rw [h.1, h.2.1]
        exact qty_le_remaining _ _)
      script (initState q origQty)
    simpa only [place_run] using h2

/-- C5 witness: a run with requested quantity 1 and an empty broker script. -/
theorem C5_no_overfill_witness :
    (place_run q0 1 none []).final.total_filled_qty ≤ 1
    ∧ ∀ r ∈ (place_run q0 1 none []).records, r.qty ≤ r.remainingBefore :=
  C5_no_overfill q0 1 none [] (le_refl 1) (by
    intro r hr
    have h : (place_run q0 1 none []).records = [] := by with_unfolding_all decide
    rw [h] at hr
    exact absurd hr (List.not_mem_nil r))

theorem openLoop_no_submit (cfg : ChaseConfig) (script : List RungOutcome) (s : OpenState)
    (h : loopGate cfg s ≠ none) : (openLoop cfg script s).records = [] := by
  rcases hg : loopGate cfg s with _ | e
  · exact absurd hg h
  · cases script <;> simp [openLoop, hg]

/-- C10: with a nonnegative cost ceiling set, and broker fill reports bounded
by the submitted quantity and limit price of their order, the accumulated
total cost of a chase run never exceeds the ceiling (every point of the loop
is the final state of the run on some prefix of the broker script). -/
theorem C10_budget (q : SpreadQuotes) (origQty : ℤ) (mc : ℚ) (script : List RungOutcome)
    (hmc : 0 ≤ mc)
    (hfill : ∀ r ∈ (place_run q origQty (some mc) script).records, ∀ snap cres,
        r.outcome = .fillObserved snap cres →
        snap.filled_qty ≤ r.qty ∧ snap.filled_avg_price ≤ r.limit_price) :
    (place_run q origQty (some mc) script).final.total_cost_so_far ≤ mc := by
  have hmain := openLoop_inv_master (mkChaseConfig q (some mc))
    (fun s => s.total_cost_so_far ≤ mc)
    (fun r => ∀ snap cres, r.outcome = .fillObserved snap cres →
        snap.filled_qty ≤ r.qty ∧ snap.filled_avg_price ≤ r.limit_price)
    (fun s hP => by simpa using hP)
    (fun s snap cres b hP hg hΦ => by
      have hfq : snap.filled_qty ≤ qty_for_attempt (mkChaseConfig q (some mc)) s :=
        (hΦ snap cres rfl).1
      have hap : snap.filled_avg_price ≤ round2 s.price_to_chase :=
        (hΦ snap cres rfl).2
      have hqt1 : 1 ≤ qty_for_attempt (mkChaseConfig q (some mc)) s :=
        ((loopGate_none_iff _ s).mp hg).2.2
      by_cases hpos : 0 < snap.filled_qty
      · simp only [applyFill, hpos, if_true]
        have hqdef : qty_for_attempt (mkChaseConfig q (some mc)) s
            = min s.remaining_overall_quantity
                (affordable_qty mc s.total_cost_so_far (round2 s.price_to_chase)
                  s.remaining_overall_quantity) := rfl
        have hfqQ : (0:ℚ) < (snap.filled_qty : ℚ) := by exact_mod_cast hpos
        by_cases hlp : round2 s.price_to_chase ≤ 0
        · have hap0 : snap.filled_avg_price ≤ 0 := le_trans hap hlp
          have hneg : snap.filled_avg_price * (snap.filled_qty : ℚ) * 100 ≤ 0 := by nlinarith
          simpa using le_trans (by linarith : s.total_cost_so_far
            + snap.filled_avg_price * (snap.filled_qty : ℚ) * 100 ≤ s.total_cost_so_far) hP
        · by_cases hrb : 0 < mc - s.total_cost_so_far
          · have haff : affordable_qty mc s.total_cost_so_far (round2 s.price_to_chase)
                s.remaining_overall_quantity
                = ⌊(mc - s.total_cost_so_far) / (round2 s.price_to_chase * 100)⌋ := by
              simp only [affordable_qty]
              rw [if_neg hlp, if_pos hrb]
            have hqle : qty_for_attempt (mkChaseConfig q (some mc)) s
                ≤ ⌊(mc - s.total_cost_so_far) / (round2 s.price_to_chase * 100)⌋ := by
              rw [hqdef, haff]
              exact min_le_right _ _
            have hlpQ : (0:ℚ) < round2 s.price_to_chase := lt_of_not_le hlp
            have hlp100 : (0:ℚ) < round2 s.price_to_chase * 100 := by positivity
            have hq_cast : ((qty_for_attempt (mkChaseConfig q (some mc)) s : ℤ) : ℚ)
                ≤ (mc - s.total_cost_so_far) / (round2 s.price_to_chase * 100) :=
              Int.le_floor.mp hqle
            have hmul : ((qty_for_attempt (mkChaseConfig q (some mc)) s : ℤ) : ℚ)
                * (round2 s.price_to_chase * 100) ≤ mc - s.total_cost_so_far :=
              (le_div_iff₀ hlp100).mp hq_cast
            have hfqle : ((snap.filled_qty : ℤ) : ℚ)
                ≤ ((qty_for_attempt (mkChaseConfig q (some mc)) s : ℤ) : ℚ) := by
              exact_mod_cast hfq
            nlinarith [mul_nonneg (sub_nonneg.mpr hap) hfqQ.le,
              mul_nonneg hlpQ.le (sub_nonneg.mpr hfqle)]
          · have haff : affordable_qty mc s.total_cost_so_far (round2 s.price_to_chase)
                s.remaining_overall_quantity = 0 := by
              simp only [affordable_qty]
              rw [if_neg hlp, if_neg hrb]
            have hle0 : qty_for_attempt (mkChaseConfig q (some mc)) s ≤ 0 := by
              rw [hqdef, haff]
              exact min_le_right _ _
            omega
      · simpa [applyFill, hpos] using hP)
    script (initState q origQty) (by simpa [initState] using hmc) hfill
  simpa only [place_run] using hmain

/-- C10 witness: requested quantity 1, ceiling 300, empty broker script. -/
theorem C10_budget_witness :
    (place_run q0 1 (some 300) []).final.total_cost_so_far ≤ 300 :=
  C10_budget q0 1 300 [] (by norm_num) (by
    intro r hr
    have h : (place_run q0 1 (some 300) []).records = [] := by with_unfolding_all decide
    rw [h] at hr
    exact absurd hr (List.not_mem_nil r))

/-- C2: with a cost ceiling set and a positive (rounded) rung price, the
quantity submitted at a rung equals
`min(remaining, floor(remaining_budget / (limit_price * 100)))`; when that
quantity is below one no order is submitted and the loop stops; and on the
scenario (ceiling 300, rung price 1.50, 5 remaining) the sized quantity
is 2. -/
theorem C2_sizing :
    (∀ (cfg : ChaseConfig) (mc : ℚ) (s : OpenState) (o : RungOutcome)
        (rest : List RungOutcome),
        cfg.max_total_cost_allowed = some mc →
        0 < round2 s.price_to_chase →
        0 < s.remaining_overall_quantity →
        s.price_to_chase ≤ cfg.maxChase →
        1 ≤ min s.remaining_overall_quantity
              ⌊(mc - s.total_cost_so_far) / (round2 s.price_to_chase * 100)⌋ →
        ((openLoop cfg (o :: rest) s).records.head?.map fun r => r.qty)
          = some (min s.remaining_overall_quantity
              ⌊(mc - s.total_cost_so_far) / (round2 s.price_to_chase * 100)⌋))
    ∧ (∀ (cfg : ChaseConfig) (mc : ℚ) (s : OpenState) (script : List RungOutcome),
        cfg.max_total_cost_allowed = some mc →
        0 < round2 s.price_to_chase →
        0 ≤ s.remaining_overall_quantity →
        min s.remaining_overall_quantity
            ⌊(mc - s.total_cost_so_far) / (round2 s.price_to_chase * 100)⌋ < 1 →
        (openLoop cfg script s).records = [])
    ∧ qty_for_attempt ⟨1 / 100, 2, some 300⟩ ⟨5, 0, 0, 0, 0, 3 / 2⟩ = 2 := by
  refine ⟨?_, ?_, by with_unfolding_all decide⟩
  · intro cfg mc s o rest hm hlp hrem hpr hQ
    have h1 : (1:ℤ) ≤ ⌊(mc - s.total_cost_so_far) / (round2 s.price_to_chase * 100)⌋ :=
      le_trans hQ (min_le_right _ _)
    have hlp100 : (0:ℚ) < round2 s.price_to_chase * 100 := by positivity
    have h2 : (1:ℚ) ≤ (mc - s.total_cost_so_far) / (round2 s.price_to_chase * 100) := by
      exact_mod_cast Int.le_floor.mp h1
    have hrb : 0 < mc - s.total_cost_so_far := by
      have := (one_le_div hlp100).mp h2
      linarith
    have haff : affordable_qty mc s.total_cost_so_far (round2 s.price_to_chase)
        s.remaining_overall_quantity
        = ⌊(mc - s.total_cost_so_far) / (round2 s.price_to_chase * 100)⌋ := by
      simp only [affordable_qty]
      rw [if_neg (not_le.mpr hlp), if_pos hrb]
    have hqdef : qty_for_attempt cfg s
        = min s.remaining_overall_quantity
            ⌊(mc - s.total_cost_so_far) / (round2 s.price_to_chase * 100)⌋ := by
      simp only [qty_for_attempt, hm]
      rw [haff]
    have hgate : loopGate cfg s = none :=
      (loopGate_none_iff cfg s).mpr ⟨hrem, hpr, by rw [hqdef]; exact hQ⟩
    have hrecqty := (stepRec_fields cfg s o).1
    simp only [openLoop, hgate]
    rcases hs : openStep cfg s o with ⟨e', s', rec⟩ | ⟨s', rec⟩ <;>
      rw [hs] at hrecqty <;> simp only [stepRec] at hrecqty <;>
      simp [hs, hrecqty, hqdef]
  · intro cfg mc s script hm hlp h0rem hQ
    have hq1 : qty_for_attempt cfg s < 1 := by
      simp only [qty_for_attempt, hm]
      by_cases hrb : 0 < mc - s.total_cost_so_far
      · have haff : affordable_qty mc s.total_cost_so_far (round2 s.price_to_chase)
            s.remaining_overall_quantity
            = ⌊(mc - s.total_cost_so_far) / (round2 s.price_to_chase * 100)⌋ := by
          simp only [affordable_qty]
          rw [if_neg (not_le.mpr hlp), if_pos hrb]
        rw [haff]
        exact hQ
      · have haff : affordable_qty mc s.total_cost_so_far (round2 s.price_to_chase)
            s.remaining_overall_quantity = 0 := by
          simp only [affordable_qty]
          rw [if_neg (not_le.mpr hlp), if_neg hrb]
        rw [haff]
        have := min_le_right s.remaining_overall_quantity (0:ℤ)
        omega
    refine openLoop_no_submit cfg script s fun hnone => ?_
    have := ((loopGate_none_iff cfg s).mp hnone).2.2
    omega

theorem applyFill_filled_qty (s : OpenState) (snap : FillSnap) :
    (applyFill s snap).total_filled_qty
      = s.total_filled_qty + (if 0 < snap.filled_qty then snap.filled_qty else 0) := by
  by_cases h : 0 < snap.filled_qty <;> simp [applyFill, h]

theorem applyFill_filled_value (s : OpenState) (snap : FillSnap) :
    (applyFill s snap).total_filled_value
      = s.total_filled_value
        + (if 0 < snap.filled_qty then snap.filled_avg_price * (snap.filled_qty : ℚ) else 0) := by
  by_cases h : 0 < snap.filled_qty <;> simp [applyFill, h]

theorem openLoop_sums (cfg : ChaseConfig) :
    ∀ (script : List RungOutcome) (s : OpenState),
      (openLoop cfg script s).final.total_filled_qty
          = s.total_filled_qty + ((openLoop cfg script s).records.map recFillQty).sum
      ∧ (openLoop cfg script s).final.total_filled_value
          = s.total_filled_value + ((openLoop cfg script s).records.map recFillValue).sum := by
  intro script
  induction script with
  | nil =>
      intro s
      simp only [openLoop]
      rcases hg : loopGate cfg s with _ | e <;> simp [hg]
  | cons o rest ih =>
      intro s
      simp only [openLoop]
      rcases hg : loopGate cfg s with _ | e
      · simp only [hg]
        cases o with
        | submitExn =>
            have h := ih (advance cfg s)
            simp only [openStep, List.map_cons, List.sum_cons]
            refine ⟨?_, ?_⟩
            · rw [h.1, advance_filled_qty,
                show recFillQty ⟨s.remaining_overall_quantity, round2 s.price_to_chase,
                  qty_for_attempt cfg s, .submitExn, false⟩ = 0 from rfl]
              ring
            · rw [h.2, advance_filled_value,
                show recFillValue ⟨s.remaining_overall_quantity, round2 s.price_to_chase,
                  qty_for_attempt cfg s, .submitExn, false⟩ = 0 from rfl]
              ring
        | waitExn =>
            have h := ih (advance cfg s)
            simp only [openStep, List.map_cons, List.sum_cons]
            refine ⟨?_, ?_⟩
            · rw [h.1, advance_filled_qty,
                show recFillQty ⟨s.remaining_overall_quantity, round2 s.price_to_chase,
                  qty_for_attempt cfg s, .waitExn, false⟩ = 0 from rfl]
              ring
            · rw [h.2, advance_filled_value,
                show recFillValue ⟨s.remaining_overall_quantity, round2 s.price_to_chase,
                  qty_for_attempt cfg s, .waitExn, false⟩ = 0 from rfl]
              ring
        | fillTimeout cres =>
            rcases hc : handleCancel cres with e' | u
            · simp [openStep, hc, recFillQty, recFillValue]
            · have h := ih (advance cfg s)
              simp only [openStep, hc, List.map_cons, List.sum_cons]
              refine ⟨?_, ?_⟩
              · rw [h.1, advance_filled_qty,
                  show recFillQty ⟨s.remaining_overall_quantity, round2 s.price_to_chase,
                    qty_for_attempt cfg s, .fillTimeout cres, true⟩ = 0 from rfl]
                ring
              · rw [h.2, advance_filled_value,
                  show recFillValue ⟨s.remaining_overall_quantity, round2 s.price_to_chase,
                    qty_for_attempt cfg s, .fillTimeout cres, true⟩ = 0 from rfl]
                ring
        | fillObserved snap cres =>
            by_cases hrem : (applyFill s snap).remaining_overall_quantity ≤ 0
            · simp only [openStep, hrem, if_true, List.map_cons, List.sum_cons,
                List.map_nil, List.sum_nil]
              refine ⟨?_, ?_⟩
              · rw [applyFill_filled_qty,
                  show recFillQty ⟨s.remaining_overall_quantity, round2 s.price_to_chase,
                    qty_for_attempt cfg s, .fillObserved snap cres, false⟩
                    = if 0 < snap.filled_qty then snap.filled_qty else 0 from rfl]
                ring
              · rw [applyFill_filled_value,
                  show recFillValue ⟨s.remaining_overall_quantity, round2 s.price_to_chase,
                    qty_for_attempt cfg s, .fillObserved snap cres, false⟩
                    = if 0 < snap.filled_qty
                        then snap.filled_avg_price * (snap.filled_qty : ℚ) else 0 from rfl]
                ring
            · have h := ih (advance cfg (applyFill s snap))
              simp only [openStep, hrem, if_false, List.map_cons, List.sum_cons]
              refine ⟨?_, ?_⟩
              · rw [h.1, advance_filled_qty, applyFill_filled_qty,
                  show recFillQty ⟨s.remaining_overall_quantity, round2 s.price_to_chase,
                    qty_for_attempt cfg s, .fillObserved snap cres,
                    decide (snap.filled_qty < qty_for_attempt cfg s) && !snap.statusCanceled⟩
                    = if 0 < snap.filled_qty then snap.filled_qty else 0 from rfl]
                ring
              · rw [h.2, advance_filled_value, applyFill_filled_value,
                  show recFillValue ⟨s.remaining_overall_quantity, round2 s.price_to_chase,
                    qty_for_attempt cfg s, .fillObserved snap cres,
                    decide (snap.filled_qty < qty_for_attempt cfg s) && !snap.statusCanceled⟩
                    = if 0 < snap.filled_qty
                        then snap.filled_avg_price * (snap.filled_qty : ℚ) else 0 from rfl]
                ring
      · simp [hg]

theorem place_some (q : SpreadQuotes) (origQty : ℤ) (mc : Option ℚ)
    (script : List RungOutcome) (s : OrderSummary)
    (h : (place_calendar_spread_order (some q) origQty mc script).1 = some s) :
    0 < (place_run q origQty mc script).final.total_filled_qty
    ∧ s.filled_qty = (place_run q origQty mc script).final.total_filled_qty
    ∧ s.filled_avg_price
        = (place_run q origQty mc script).final.total_filled_value
          / ((place_run q origQty mc script).final.total_filled_qty : ℚ) := by
  simp only [place_calendar_spread_order] at h
  split_ifs at h with h1 h2
  · cases hx : (place_run q origQty mc script).exit <;> rw [hx] at h <;> dsimp only at h <;>
      first
        | (rw [Option.some_inj] at h; subst h; exact ⟨h2, rfl, rfl⟩)
        | exact absurd h (by simp)
  · cases hx : (place_run q origQty mc script).exit <;> rw [hx] at h <;> dsimp only at h <;>
      exact absurd h (by simp)

/-- C8 counterexample: with one rung whose limit price is 1.05 and a broker
fill of 1 contract at the improved price 1.00, the reported average price
1.00 lies strictly below every rung limit price at which a fill occurred,
refuting the claimed lower bound. -/
theorem C8_counterexample : ¬ C8_lower_bound_as_stated := by
  intro hclaim
  obtain ⟨p, hp, hple⟩ := hclaim q0 1 none [.fillObserved ⟨1, 1, 0, false⟩ .success]
    ⟨1, 1, 0⟩ (by with_unfolding_all decide)
  have hl : filledRungLimits
      ((place_calendar_spread_order (some q0) 1 none
        [.fillObserved ⟨1, 1, 0, false⟩ .success]).2) = [21 / 20] := by
    with_unfolding_all decide
  rw [hl, List.mem_singleton] at hp
  subst hp
  have h1 : (21:ℚ) / 20 ≤ 1 := hple
  norm_num at h1

/-- C8 (amended): the reported average price equals
`sum(price_i * qty_i) / sum(qty_i)` over the per-rung fills, and lies
between any bounds enclosing the per-rung average fill prices (hence
between the minimum and maximum per-rung fill prices; it lies between the
rung limit prices only when each fill's price is bounded by them, e.g. when
every fill occurs exactly at its rung's limit). -/
theorem C8_avg_price_amended (q : SpreadQuotes) (origQty : ℤ) (mc : Option ℚ)
    (script : List RungOutcome) (L U : ℚ) (s : OrderSummary)
    (hres : (place_calendar_spread_order (some q) origQty mc script).1 = some s)
    (hb : ∀ r ∈ (place_run q origQty mc script).records, ∀ snap cres,
        r.outcome = .fillObserved snap cres → 0 < snap.filled_qty →
        L ≤ snap.filled_avg_price ∧ snap.filled_avg_price ≤ U) :
    0 < s.filled_qty
    ∧ s.filled_avg_price
        = ((place_run q origQty mc script).records.map recFillValue).sum
          / ((((place_run q origQty mc script).records.map recFillQty).sum : ℤ) : ℚ)
    ∧ L ≤ s.filled_avg_price ∧ s.filled_avg_price ≤ U := by
  obtain ⟨hpos, hq, ha⟩ := place_some q origQty mc script s hres
  have hsums := openLoop_sums (mkChaseConfig q mc) script (initState q origQty)
  have hbounds := openLoop_inv_master (mkChaseConfig q mc)
    (fun st => 0 ≤ st.total_filled_qty
      ∧ L * (st.total_filled_qty : ℚ) ≤ st.total_filled_value
      ∧ st.total_filled_value ≤ U * (st.total_filled_qty : ℚ))
    (fun r => ∀ snap cres, r.outcome = .fillObserved snap cres →
        0 < snap.filled_qty → L ≤ snap.filled_avg_price ∧ snap.filled_avg_price ≤ U)
    (fun st hP => by simpa using hP)
    (fun st snap cres b hP hg hΦ => by
      by_cases hfq : 0 < snap.filled_qty
      · obtain ⟨hL, hU⟩ := hΦ snap cres rfl hfq
        obtain ⟨h0, hlow, hhigh⟩ := hP
        have hfqQ : (0:ℚ) < (snap.filled_qty : ℚ) := by exact_mod_cast hfq
        simp only [applyFill, hfq, if_true]
        refine ⟨by omega, ?_, ?_⟩
        · push_cast
          nlinarith [mul_nonneg (sub_nonneg.mpr hL) hfqQ.le]
        · push_cast
          nlinarith [mul_nonneg (sub_nonneg.mpr hU) hfqQ.le]
      · simpa [applyFill, hfq] using hP)
    script (initState q origQty) (by simp [initState]) hb
  rw [show openLoop (mkChaseConfig q mc) script (initState q origQty)
      = place_run q origQty mc script from rfl] at hsums hbounds
  simp only [initState] at hsums
  obtain ⟨hsq, hsv⟩ := hsums
  rw [zero_add] at hsq hsv
  have hfqQ : (0:ℚ) < ((place_run q origQty mc script).final.total_filled_qty : ℚ) := by
    exact_mod_cast hpos
  obtain ⟨_, hlow, hhigh⟩ := hbounds
  refine ⟨by rw [hq]; exact hpos, ?_, ?_, ?_⟩
  · rw [ha, hsq, hsv]
  · rw [ha]
    exact (le_div_iff₀ hfqQ).mpr hlow
  · rw [ha]
    exact (div_le_iff₀ hfqQ).mpr hhigh

/-- C8 witness: a single rung filled at exactly its limit price 1.05. -/
theorem C8_avg_price_amended_witness :
    (21:ℚ) / 20 ≤ (OrderSummary.mk (21 / 20) 1 0).filled_avg_price :=
  (C8_avg_price_amended q0 1 none [.fillObserved ⟨1, 21 / 20, 0, false⟩ .success]
    (21 / 20) (21 / 20) ⟨21 / 20, 1, 0⟩ (by with_unfolding_all decide) (by
      intro r hr snap cres heq _
      have hrecs : (place_run q0 1 none [.fillObserved ⟨1, 21 / 20, 0, false⟩ .success]).records
          = [⟨1, 21 / 20, 1, .fillObserved ⟨1, 21 / 20, 0, false⟩ .success, false⟩] := by
        with_unfolding_all decide
      rw [hrecs, List.mem_singleton] at hr
      subst hr
      injection heq with hsnap hcres
      subst hsnap
      exact ⟨le_refl _, le_refl _⟩)).2.2.1

theorem place_records (q : SpreadQuotes) (origQty : ℤ) (mc : Option ℚ)
    (script : List RungOutcome) :
    (place_calendar_spread_order (some q) origQty mc script).2 = []
    ∨ (place_calendar_spread_order (some q) origQty mc script).2
      = (place_run q origQty mc script).records := by
  simp only [place_calendar_spread_order]
  split_ifs with h1 h2
  · exact Or.inl rfl
  · right
    cases hx : (place_run q origQty mc script).exit <;> rfl
  · right
    cases hx : (place_run q origQty mc script).exit <;> rfl

/-- C1 counterexample: with broker script [non-timeout wait exception,
timeout], the loop submits rung 2 while rung 1's order — created, not
filled, never cancelled, never observed terminal — may still be live:
the generic exception handler advances the ladder without cancelling. -/
theorem C1_counterexample : ¬ C1_as_stated := by
  intro hclaim
  have h := hclaim q0 5 none [.waitExn, .fillTimeout .success] 0 1
    (by with_unfolding_all decide) (by with_unfolding_all decide)
    (by norm_num) (by with_unfolding_all decide) (by with_unfolding_all decide)
  exact absurd h (by with_unfolding_all decide)

/-- C1 (amended): every rung whose broker outcome is not a non-timeout
post-submission exception is resolved before the loop moves on — fully
filled, observed terminal, or a cancel issued (so no order of such a rung
can still be live when the next rung is submitted).  On the non-timeout
exception path the order is left uncancelled, as the counterexample shows. -/
theorem C1_amended (q : SpreadQuotes) (origQty : ℤ) (mc : Option ℚ)
    (script : List RungOutcome) :
    ∀ r ∈ (place_calendar_spread_order (some q) origQty mc script).2,
      r.outcome ≠ .waitExn → orderLive r = false := by
  intro r hr hnw
  rcases place_records q origQty mc script with hrecs | hrecs
  · rw [hrecs] at hr
    exact absurd hr (List.not_mem_nil r)
  · rw [hrecs] at hr
    revert hnw
    refine openLoop_records_master (mkChaseConfig q mc)
      (fun r => r.outcome ≠ .waitExn → orderLive r = false)
      (fun st o hg => ?_) script (initState q origQty) r hr
    intro hno
    have hrem : 0 < st.remaining_overall_quantity := ((loopGate_none_iff _ st).mp hg).1
    have hqle : qty_for_attempt (mkChaseConfig q mc) st ≤ st.remaining_overall_quantity :=
      qty_le_remaining _ _
    cases o with
    | submitExn =>
        simp [openStep, stepRec, orderLive, orderCreated]
    | waitExn =>
        exact absurd (by simp [openStep, stepRec]) hno
    | fillTimeout cres =>
        rcases hc : handleCancel cres with e' | u <;>
          simp [openStep, stepRec, hc, orderLive, orderCreated, fullyFilledRung,
            observedTerminalRung]
    | fillObserved snap cres =>
        by_cases hr0 : (applyFill st snap).remaining_overall_quantity ≤ 0
        · have hff : qty_for_attempt (mkChaseConfig q mc) st ≤ snap.filled_qty := by
            by_cases hfq : 0 < snap.filled_qty
            · have : (applyFill st snap).remaining_overall_quantity
                  = st.remaining_overall_quantity - snap.filled_qty := by
                simp [applyFill, hfq]
              omega
            · have : applyFill st snap = st := by simp [applyFill, hfq]
              rw [this] at hr0
              omega
          simp [openStep, stepRec, hr0, orderLive, orderCreated, fullyFilledRung,
            observedTerminalRung, hff]
        · by_cases hfull : qty_for_attempt (mkChaseConfig q mc) st ≤ snap.filled_qty
          · simp [openStep, stepRec, hr0, orderLive, orderCreated, fullyFilledRung,
              observedTerminalRung, hfull]
          · by_cases hcanc : snap.statusCanceled <;>
              simp [openStep, stepRec, hr0, orderLive, orderCreated, fullyFilledRung,
                observedTerminalRung, hfull, hcanc, lt_of_not_le hfull]

/-- C1 witness: a rung whose submission raised creates no order, hence
nothing live. -/
theorem C1_amended_witness :
    orderLive ⟨5, 21 / 20, 5, .submitExn, false⟩ = false :=
  C1_amended q0 5 none [.submitExn] ⟨5, 21 / 20, 5, .submitExn, false⟩
    (by with_unfolding_all decide) (by with_unfolding_all decide)

theorem place_none_eq (origQty : ℤ) (mc : Option ℚ) (script : List RungOutcome) :
    place_calendar_spread_order none origQty mc script = (none, []) := by
  unfold place_calendar_spread_order
  split <;> rfl

theorem closeLoop_inv (stp min_price : ℚ) (quantity : ℤ) :
    ∀ (script : List RungOutcome) (s : CloseState),
      (∀ o ∈ script, ∀ snap cres, o = .fillObserved snap cres → 0 ≤ snap.filled_qty) →
      CloseInv quantity s → CloseInv quantity (closeLoop stp min_price script s).1 := by
  intro script
  induction script with
  | nil =>
      intro s hnn hI
      simp only [closeLoop]
      split_ifs <;> exact hI
  | cons o rest ih =>
      intro s hnn hI
      obtain ⟨h0, hsum, h3, h4⟩ := hI
      simp only [closeLoop]
      split_ifs with hgate
      · exact ⟨h0, hsum, h3, h4⟩
      · obtain ⟨hrem, hpr⟩ := not_or.mp hgate
        cases o with
        | submitExn => exact ⟨h0, hsum, h3, h4⟩
        | waitExn =>
            exact ⟨h0, hsum, fun _ => Or.inr rfl, fun hr0 => absurd hr0 hrem⟩
        | fillTimeout cres =>
            rcases hc : handleCancel cres with e' | u <;> simp only [hc]
            · exact ⟨h0, hsum, fun _ => Or.inr rfl, fun hr0 => absurd hr0 hrem⟩
            · exact ih _ (fun o' ho' => hnn o' (List.mem_cons_of_mem _ ho'))
                ⟨h0, hsum, fun _ => Or.inr rfl, fun hr0 => absurd hr0 hrem⟩
        | fillObserved snap cres =>
            have hfq : 0 ≤ snap.filled_qty :=
              hnn _ (List.mem_cons_self _ _) snap cres rfl
            by_cases hpos : 0 < snap.filled_qty <;> simp only [hpos, if_true, if_false]
            · by_cases hr3 : s.remaining - snap.filled_qty ≤ 0 <;>
                simp only [hr3, if_true, if_false]
              · have htf : 0 < s.total_filled_qty + snap.filled_qty := by omega
                simp only [htf, if_true]
                refine ⟨?_, ?_, ?_, ?_⟩ <;> dsimp only
                · omega
                · omega
                · intro habs
                  exact absurd habs (by omega)
                · intro _
                  exact Or.inr rfl
              · rcases hc : handleCancel cres with e' | u <;> simp only [hc]
                · refine ⟨?_, ?_, ?_, ?_⟩ <;> dsimp only
                  · omega
                  · omega
                  · intro habs
                    exact absurd habs (by omega)
                  · intro hr0
                    exact absurd hr0 hr3
                · refine ih _ (fun o' ho' => hnn o' (List.mem_cons_of_mem _ ho')) ?_
                  refine ⟨?_, ?_, ?_, ?_⟩ <;> dsimp only
                  · omega
                  · omega
                  · intro habs
                    exact absurd habs (by omega)
                  · intro hr0
                    exact absurd hr0 hr3
            · have hfq0 : snap.filled_qty = 0 := by omega
              by_cases hr3 : s.remaining - snap.filled_qty ≤ 0 <;>
                simp only [hr3, if_true, if_false]
              · exact absurd (by omega : s.remaining ≤ 0) hrem
              · rcases hc : handleCancel cres with e' | u <;> simp only [hc]
                · refine ⟨?_, ?_, ?_, ?_⟩ <;> dsimp only
                  · exact h0
                  · omega
                  · intro _
                    exact Or.inr rfl
                  · intro hr0
                    exact absurd hr0 hr3
                · refine ih _ (fun o' ho' => hnn o' (List.mem_cons_of_mem _ ho')) ?_
                  refine ⟨?_, ?_, ?_, ?_⟩ <;> dsimp only
                  · exact h0
                  · omega
                  · intro _
                    exact Or.inr rfl
                  · intro hr0
                    exact absurd hr0 hr3

theorem closeDispatch_spec (quantity : ℤ) (s : CloseState) (hI : CloseInv quantity s) :
    closeDispatch quantity s = .noRet
    ∨ (∃ fq avg, closeDispatch quantity s = .partSummary fq avg ∧ 0 < fq)
    ∨ (∃ v, closeDispatch quantity s = .lastOrderRet v ∧ 0 < v.filled_qty)
    ∨ (∃ v, closeDispatch quantity s = .lastOrderRet v ∧ v.filled_qty = 0
        ∧ s.total_filled_qty = 0) := by
  obtain ⟨h0, hsum, h3, h4⟩ := hI
  unfold closeDispatch
  split_ifs with hA hB
  · rcases hlast : s.last_order with _ | v
    · exact Or.inl rfl
    · exact Or.inr (Or.inl ⟨s.total_filled_qty, _, rfl, hA.1⟩)
  · rcases hlast : s.last_order with _ | v
    · exact Or.inl rfl
    · have hrem0 : s.remaining ≤ 0 := by omega
      rcases h4 hrem0 with htfq0 | hcum
      · rcases h3 htfq0 with hnone | hzero
        · rw [hlast] at hnone
          simp at hnone
        · rw [hlast, Option.some_inj] at hzero
          subst hzero
          exact Or.inr (Or.inr (Or.inr ⟨⟨0, 0⟩, rfl, rfl, htfq0⟩))
      · rw [hlast, Option.some_inj] at hcum
        subst hcum
        by_cases hpos : 0 < s.total_filled_qty
        · exact Or.inr (Or.inr (Or.inl ⟨_, rfl, hpos⟩))
        · have htfq0 : s.total_filled_qty = 0 := by omega
          exact Or.inr (Or.inr (Or.inr ⟨_, rfl, htfq0, htfq0⟩))
  · rcases hlast : s.last_order with _ | v
    · exact Or.inl rfl
    · by_cases htf : 0 < s.total_filled_qty
      · have hge : ¬ s.total_filled_qty < quantity := by
          rcases not_and_or.mp hA with h' | h'
          · exact absurd htf h'
          · exact h'
        have hrem0 : s.remaining ≤ 0 := by omega
        rcases h4 hrem0 with h' | hcum
        · exact absurd h' (by omega)
        · rw [hlast, Option.some_inj] at hcum
          subst hcum
          exact Or.inr (Or.inr (Or.inl ⟨_, rfl, htf⟩))
      · have htfq0 : s.total_filled_qty = 0 := by omega
        rcases h3 htfq0 with hnone | hzero
        · rw [hlast] at hnone
          simp at hnone
        · rw [hlast, Option.some_inj] at hzero
          subst hzero
          exact Or.inr (Or.inr (Or.inr ⟨_, rfl, rfl, htfq0⟩))

/-- C4 counterexample: closing 5 contracts against a broker that never
fills (16 timed-out rungs exhaust the closing ladder of the scenario
quotes), zero quantity is filled, yet `close_calendar_spread_order`
returns the last submitted order object (zero-filled), not `None`. -/
theorem C4_counterexample : ¬ C4_close_zero_fill_as_stated := by
  intro hclaim
  have h := hclaim q0 5 (List.replicate 16 (.fillTimeout .success))
    (by with_unfolding_all decide)
  exact absurd h (by with_unfolding_all decide)

/-- C4 (amended): `place_calendar_spread_order` returns either a summary
with positive cumulative filled quantity or `None` (in particular `None`
when the requested quantity is below one), and never raises.
`close_calendar_spread_order` (given nonnegative broker fill quantities)
returns `None`, a positive partial-fill summary, a positive-fill order
object, or — when zero quantity was filled — the last submitted order
object with zero filled quantity rather than `None`. -/
theorem C4_amended (quotes : Option SpreadQuotes) (qtyP : ℤ) (mcP : Option ℚ)
    (scriptP : List RungOutcome) (q : SpreadQuotes) (quantity : ℤ)
    (script : List RungOutcome)
    (hnn : ∀ o ∈ script, ∀ snap cres, o = .fillObserved snap cres → 0 ≤ snap.filled_qty) :
    ((place_calendar_spread_order quotes qtyP mcP scriptP).1 = none
      ∨ ∃ s, (place_calendar_spread_order quotes qtyP mcP scriptP).1 = some s
          ∧ 0 < s.filled_qty)
    ∧ (qtyP < 1 → (place_calendar_spread_order quotes qtyP mcP scriptP).1 = none)
    ∧ (close_calendar_spread_order (some q) quantity script = .noRet
        ∨ (∃ fq avg, close_calendar_spread_order (some q) quantity script
            = .partSummary fq avg ∧ 0 < fq)
        ∨ (∃ v, close_calendar_spread_order (some q) quantity script = .lastOrderRet v
            ∧ 0 < v.filled_qty)
        ∨ ∃ v, close_calendar_spread_order (some q) quantity script = .lastOrderRet v
            ∧ v.filled_qty = 0 ∧ (close_run q quantity script).1.total_filled_qty = 0) := by
  refine ⟨?_, ?_, ?_⟩
  · rcases hplace : (place_calendar_spread_order quotes qtyP mcP scriptP).1 with _ | s
    · exact Or.inl rfl
    · cases quotes with
      | none =>
          rw [place_none_eq] at hplace
          simp at hplace
      | some q' =>
          obtain ⟨hpos, hqeq, _⟩ := place_some q' qtyP mcP scriptP s hplace
          exact Or.inr ⟨s, rfl, by rw [hqeq]; exact hpos⟩
  · intro hlt
    cases quotes with
    | none => rw [place_none_eq]
    | some q' => simp [place_calendar_spread_order, hlt]
  · have hInv : CloseInv quantity (close_run q quantity script).1 :=
      closeLoop_inv (chase_step q) q.short_ask quantity script
        ⟨quantity, 0, 0, -(q.long_ask - q.short_bid), none⟩ hnn
        ⟨le_refl 0, by dsimp only; omega, fun _ => Or.inl rfl, fun _ => Or.inl rfl⟩
    rcases hend : (close_run q quantity script).2 with _ | _ | _
    · have hval : close_calendar_spread_order (some q) quantity script
          = closeDispatch quantity (close_run q quantity script).1 := by
        simp only [close_calendar_spread_order]
        rw [hend]
      rw [hval]
      exact closeDispatch_spec quantity _ hInv
    · left
      simp only [close_calendar_spread_order]
      rw [hend]
    · have hval : close_calendar_spread_order (some q) quantity script
          = closeDispatch quantity (close_run q quantity script).1 := by
        simp only [close_calendar_spread_order]
        rw [hend]
      rw [hval]
      exact closeDispatch_spec quantity _ hInv

/-- C4 witness: unavailable quotes yield an absent result for the opening
entry point; an empty closing script yields `None`. -/
theorem C4_amended_witness :
    (place_calendar_spread_order none 0 none []).1 = none
    ∨ ∃ s, (place_calendar_spread_order none 0 none []).1 = some s ∧ 0 < s.filled_qty :=
  (C4_amended none 0 none [] q0 1 []
    (fun o ho => absurd ho (List.not_mem_nil o))).1

/-- C2 witness: the scenario rung, submitted through the loop. -/
theorem C2_sizing_witness :
    ((openLoop ⟨1 / 100, 2, some 300⟩ [.fillTimeout .success]
        ⟨5, 0, 0, 0, 0, 3 / 2⟩).records.head?.map fun r => r.qty)
      = some (min (5:ℤ) ⌊((300:ℚ) - 0) / (round2 (3 / 2) * 100)⌋) :=
  C2_sizing.1 ⟨1 / 100, 2, some 300⟩ 300 ⟨5, 0, 0, 0, 0, 3 / 2⟩ (.fillTimeout .success) []
    rfl (by with_unfolding_all decide) (by with_unfolding_all decide)
    (by with_unfolding_all decide) (by with_unfolding_all decide)

end EarningsBot
